import Mathlib

/-!
Verification of the ai_group_chat memory subsystem.

This file gives a shallow embedding of the context-compression engine and the
long-term-memory archival/retrieval pipeline of the repository, and proves (or
refutes) the stated properties about them.

Conventions used throughout the embedding:
* timestamps are rationals (seconds); float arithmetic is modelled over ℚ where
  the code only compares and adds, and over ℝ where it takes real powers;
* remote collaborators (chat completion, summarizer, classifier, embedding,
  the difflib sequence-matcher and the tiktoken encoder) are oracle parameters;
* Python `round(x, 4)` (rounding ties to even) is modelled exactly.
-/

namespace AiGroupChat

/-- Discussion mode (`models/schemas.py`, `DiscussionMode`). -/
inductive DiscussionMode
  | free
  | qa
deriving DecidableEq, Repr

/-- Message role (`models/schemas.py`, `MessageRole`). -/
inductive MessageRole
  | user
  | assistant
  | system
deriving DecidableEq, Repr

/-- Message semantic type (`models/schemas.py`, `MessageType`). -/
inductive MessageType
  | user
  | status
  | reasoning
  | failure
  | normal
deriving DecidableEq, Repr

/-- Chat message (`models/schemas.py`, `Message`).  `created_at` is a rational
timestamp in seconds; `value_score` holds the float score as an exact rational
(every IEEE float is rational, and the compressor only compares scores). -/
structure Message where
  id : String
  group_id : String
  role : MessageRole
  content : String
  sender_id : Option String := none
  user_id : Option String := none
  sender_name : Option String := none
  mode : Option DiscussionMode := none
  created_at : ℚ
  message_type : MessageType := .normal
  is_compressed : Bool := false
  original_content : Option String := none
  value_score : Option ℚ := none
deriving DecidableEq, Repr

/-- Model of `ValueThresholds.HIGH` (`memory/value_scorer.py`). -/
def ValueThresholds.HIGH : ℚ := 5

/-- Model of `ValueThresholds.MEDIUM` (`memory/value_scorer.py`). -/
def ValueThresholds.MEDIUM : ℚ := 2

/-- Model of `msg.value_score or 0` inside `ContextCompressor.triage_messages`
(`memory/compressor.py`): a missing score (and the falsy score `0.0`)
both yield `0`. -/
def msgScore (m : Message) : ℚ := m.value_score.getD 0

/-- Model of `ContextCompressor.triage_messages` (`memory/compressor.py`): split a scored
message list into (high, medium, low) buckets, preserving order.  `hi` and `med`
are the `high_threshold` and `medium_threshold`. -/
def triage_messages (hi med : ℚ) : List Message → List Message × List Message × List Message
  | [] => ([], [], [])
  | m :: rest =>
    let t := triage_messages hi med rest
    if hi ≤ msgScore m then (m :: t.1, t.2.1, t.2.2)
    else if med ≤ msgScore m then (t.1, m :: t.2.1, t.2.2)
    else (t.1, t.2.1, m :: t.2.2)

/-- The summary `Message` object built by `ContextCompressor.summarize_messages`
(`memory/compressor.py`) from the first source message and the summary text. -/
def mkSummaryMessage (first : Message) (text : String) : Message :=
  { id := "summary_" ++ first.id
    group_id := first.group_id
    role := first.role
    content := text
    sender_name := some "📋 历史摘要"
    mode := first.mode
    created_at := first.created_at
    message_type := .status
    is_compressed := true
    original_content := none
    value_score := some ValueThresholds.HIGH }

/-- Model of `ContextCompressor.summarize_messages` (`memory/compressor.py`).  The remote
summarizer is an oracle; `none` models an exception or falsy (`None`/empty)
summary text, in which case no summary message is produced. -/
def summarize_messages (summarizer : List Message → Option String)
    (messages : List Message) : Option Message :=
  match messages with
  | [] => none
  | first :: _ =>
    match summarizer messages with
    | none => none
    | some t => if t = "" then none else some (mkSummaryMessage first t)

/-- Comparison key of `compressed.sort(key=lambda m: m.created_at)`. -/
def createdLe (a b : Message) : Bool := a.created_at ≤ b.created_at

/-- Python slicing `l[-k:]`.  Note `-0` is `0`, so `k = 0` yields the whole
list, not the empty one. -/
def pySliceLast {α : Type} (l : List α) (k : ℕ) : List α :=
  if k = 0 then l else l.drop (l.length - k)

/-- Python slicing `l[:-k]` (for `k = 0` this is `l[:0]`, the empty list). -/
def pySliceDropLast {α : Type} (l : List α) (k : ℕ) : List α :=
  if k = 0 then [] else l.take (l.length - k)

/-- Model of `ContextCompressor.compress` (`memory/compressor.py`).  The stable Python
`list.sort` is modelled by the stable `List.mergeSort`. -/
def compress (summarizer : List Message → Option String) (hi med : ℚ)
    (messages : List Message) (keep_recent : ℕ) : List Message :=
  if messages.length ≤ keep_recent then messages
  else
    let recent_messages := pySliceLast messages keep_recent
    let older_messages := pySliceDropLast messages keep_recent
    let t := triage_messages hi med older_messages
    let high_value := t.1
    let medium_value := t.2.1
    let mid : List Message :=
      if medium_value.isEmpty then []
      else
        match summarize_messages summarizer medium_value with
        | some s => [s]
        | none => medium_value
    ((high_value ++ mid).mergeSort createdLe) ++ recent_messages

/-- Model of `ContextCompressor.compress_async` (`memory/compressor.py`): textually the
same algorithm as `compress` with the async summarizer. -/
def compress_async (summarizer : List Message → Option String) (hi med : ℚ)
    (messages : List Message) (keep_recent : ℕ) : List Message :=
  if messages.length ≤ keep_recent then messages
  else
    let recent_messages := pySliceLast messages keep_recent
    let older_messages := pySliceDropLast messages keep_recent
    let t := triage_messages hi med older_messages
    let high_value := t.1
    let medium_value := t.2.1
    let mid : List Message :=
      if medium_value.isEmpty then []
      else
        match summarize_messages summarizer medium_value with
        | some s => [s]
        | none => medium_value
    ((high_value ++ mid).mergeSort createdLe) ++ recent_messages

theorem triage_length (hi med : ℚ) (l : List Message) :
    (triage_messages hi med l).1.length + (triage_messages hi med l).2.1.length +
      (triage_messages hi med l).2.2.length = l.length := by
  induction l with
  | nil => simp [triage_messages]
  | cons m rest ih =>
    simp only [triage_messages]
    split_ifs <;> simp only [List.length_cons] <;> omega

theorem summarize_messages_length_le (summarizer : List Message → Option String)
    (medium : List Message) (hne : ¬ medium.isEmpty)
    (mid : List Message)
    (hmid : mid = match summarize_messages summarizer medium with
      | some s => [s]
      | none => medium) :
    mid.length ≤ medium.length := by
  rcases h : summarize_messages summarizer medium with _ | s
  · rw [h] at hmid; simp [hmid]
  · rw [h] at hmid
    subst hmid
    cases medium with
    | nil => simp at hne
    | cons a t => simp [List.length_cons]

theorem compress_keep_zero (summarizer : List Message → Option String) (hi med : ℚ)
    (messages : List Message) :
    compress summarizer hi med messages 0 = messages := by
  unfold compress
  by_cases hle : messages.length ≤ 0
  · rw [if_pos hle]
  · rw [if_neg hle]
    rw [show pySliceDropLast messages 0 = ([] : List Message) from by
      unfold pySliceDropLast; simp]
    rw [show pySliceLast messages 0 = messages from by
      unfold pySliceLast; simp]
    simp [triage_messages, List.mergeSort_nil]

/-- C1: for every scored message list and every `keepRecent`,
`ContextCompressor.compress` returns a list of length at most the input length,
and the last `keepRecent` input messages form, verbatim and in order, the tail
of the output. -/
theorem C1_compress_length_and_recent_tail (summarizer : List Message → Option String)
    (hi med : ℚ) (messages : List Message) (keep_recent : ℕ) :
    (compress summarizer hi med messages keep_recent).length ≤ messages.length ∧
      (messages.drop (messages.length - keep_recent)) <:+
        compress summarizer hi med messages keep_recent := by
  by_cases hk0 : keep_recent = 0
  · subst hk0
    rw [compress_keep_zero]
    refine ⟨le_rfl, ?_⟩
    rw [Nat.sub_zero, List.drop_length]
    exact ⟨messages, by simp⟩
  unfold compress
  by_cases hle : messages.length ≤ keep_recent
  · rw [if_pos hle]
    have h0 : messages.length - keep_recent = 0 := Nat.sub_eq_zero_of_le hle
    rw [h0]
    exact ⟨le_rfl, by simp⟩
  · rw [if_neg hle]
    rw [show pySliceLast messages keep_recent =
        messages.drop (messages.length - keep_recent) from by
      unfold pySliceLast; rw [if_neg hk0]]
    rw [show pySliceDropLast messages keep_recent =
        messages.take (messages.length - keep_recent) from by
      unfold pySliceDropLast; rw [if_neg hk0]]
    refine ⟨?_, List.suffix_append _ _⟩
    have hk : keep_recent < messages.length := Nat.lt_of_not_le hle
    set d := messages.length - keep_recent with hd
    have htri := triage_length hi med (messages.take d)
    have htake : (messages.take d).length = d := by
      rw [List.length_take]
      omega
    rw [htake] at htri
    have hdrop : (messages.drop d).length = messages.length - d := List.length_drop ..
    simp only [List.length_append, List.length_mergeSort]
    rcases he : (triage_messages hi med (messages.take d)).2.1.isEmpty with _ | _
    · -- medium tier nonempty: one summary message or the originals
      have hb : ¬ (triage_messages hi med (messages.take d)).2.1.isEmpty := by simp [he]
      simp only [he, Bool.false_eq_true, if_false]
      have hmle := summarize_messages_length_le summarizer _ hb _ rfl
      omega
    · simp only [he, if_true]
      simp only [List.length_append, List.length_nil]
      omega

/-- C7: a summary message synthesized by the compressor for a non-empty medium
group has id `"summary_" ++ first.id`, carries, from the first source message, its
conversation id, role, mode and timestamp, is marked compressed, typed
"status", and scored with the high threshold `5.0`. -/
theorem C7_summary_message_fields (summarizer : List Message → Option String)
    (first : Message) (rest : List Message) (m : Message)
    (h : summarize_messages summarizer (first :: rest) = some m) :
    m.id = "summary_" ++ first.id ∧ m.group_id = first.group_id ∧
      m.role = first.role ∧ m.mode = first.mode ∧ m.created_at = first.created_at ∧
      m.is_compressed = true ∧ m.message_type = MessageType.status ∧
      m.value_score = some ValueThresholds.HIGH ∧ ValueThresholds.HIGH = 5 := by
  have h1 : (match summarizer (first :: rest) with
      | none => none
      | some t => if t = "" then none else some (mkSummaryMessage first t)) = some m := h
  rcases ho : summarizer (first :: rest) with _ | t
  · rw [ho] at h1; exact absurd h1 (by simp)
  · rw [ho] at h1
    have h2 : (if t = "" then none else some (mkSummaryMessage first t)) = some m := h1
    by_cases ht : t = ""
    · rw [if_pos ht] at h2; exact absurd h2 (by simp)
    · rw [if_neg ht] at h2
      have hm : mkSummaryMessage first t = m := Option.some.inj h2
      subst hm
      exact ⟨rfl, rfl, rfl, rfl, rfl, rfl, rfl, rfl, rfl⟩

/-- A concrete message used by witnesses. -/
def wMsg : Message :=
  { id := "m1", group_id := "g1", role := .assistant, content := "hello", created_at := 0 }

theorem C7_summary_message_fields_witness :
    summarize_messages (fun _ => some "s") (wMsg :: []) = some (mkSummaryMessage wMsg "s") ∧
      ((mkSummaryMessage wMsg "s").id = "summary_" ++ wMsg.id ∧
        (mkSummaryMessage wMsg "s").group_id = wMsg.group_id ∧
        (mkSummaryMessage wMsg "s").role = wMsg.role ∧
        (mkSummaryMessage wMsg "s").mode = wMsg.mode ∧
        (mkSummaryMessage wMsg "s").created_at = wMsg.created_at ∧
        (mkSummaryMessage wMsg "s").is_compressed = true ∧
        (mkSummaryMessage wMsg "s").message_type = MessageType.status ∧
        (mkSummaryMessage wMsg "s").value_score = some ValueThresholds.HIGH ∧
        ValueThresholds.HIGH = 5) :=
  ⟨by decide, C7_summary_message_fields (fun _ => some "s") wMsg [] _ (by decide)⟩

/-- C10: when the input has at most `keep_recent` messages, both `compress` and
`compress_async` return the input list itself unchanged. -/
theorem C10_compress_small_list_identity (summarizer : List Message → Option String)
    (hi med : ℚ) (messages : List Message) (keep_recent : ℕ)
    (h : messages.length ≤ keep_recent) :
    compress summarizer hi med messages keep_recent = messages ∧
      compress_async summarizer hi med messages keep_recent = messages := by
  unfold compress compress_async
  rw [if_pos h]
  exact ⟨rfl, rfl⟩

theorem C10_compress_small_list_identity_witness :
    (wMsg :: []).length ≤ 5 ∧
      (compress (fun _ => none) 5 2 (wMsg :: []) 5 = (wMsg :: []) ∧
        compress_async (fun _ => none) 5 2 (wMsg :: []) 5 = (wMsg :: [])) :=
  ⟨by decide, C10_compress_small_list_identity (fun _ => none) 5 2 (wMsg :: []) 5 (by decide)⟩

/-! ### ContextManager token estimation (`memory/context_manager.py`) -/

/-- Per-message contribution inside `ContextManager.count_messages_tokens`:
content tokens plus, when `sender_name` is truthy (present and non-empty),
its tokens plus 4.  `enc` is the tiktoken encoder collaborator, giving the
token count of a text. -/
def messageTokens (enc : String → ℕ) (m : Message) : ℕ :=
  enc m.content +
    (match m.sender_name with
     | some s => if s = "" then 0 else enc s + 4
     | none => 0)

/-- Model of `ContextManager.count_messages_tokens`: per-message tokens plus a fixed
4-token framing overhead per message. -/
def count_messages_tokens (enc : String → ℕ) (messages : List Message) : ℕ :=
  (messages.map (messageTokens enc)).sum + messages.length * 4

/-- Python `int(q)`: truncation toward zero. -/
def pyInt (q : ℚ) : ℤ := if 0 ≤ q then ⌊q⌋ else -⌊-q⌋

/-- Model of `ContextManager.should_compress`: the token estimate reaches
`threshold_tokens = int(max_tokens * threshold_ratio)`. -/
def should_compress (enc : String → ℕ) (max_tokens : ℕ) (threshold : ℚ)
    (messages : List Message) : Bool :=
  pyInt ((max_tokens : ℚ) * threshold) ≤ (count_messages_tokens enc messages : ℤ)

/-- C9: appending a message with non-empty content never decreases the
estimated token count, for every tokenizer. -/
theorem C9_count_tokens_monotone (enc : String → ℕ) (messages : List Message)
    (m : Message) (_h : m.content ≠ "") :
    count_messages_tokens enc messages ≤ count_messages_tokens enc (messages ++ [m]) := by
  unfold count_messages_tokens
  simp only [List.map_append, List.sum_append, List.length_append, List.map_cons,
    List.map_nil, List.sum_cons, List.sum_nil, List.length_cons, List.length_nil]
  omega

theorem C9_count_tokens_monotone_witness :
    wMsg.content ≠ "" ∧
      count_messages_tokens String.length [] ≤
        count_messages_tokens String.length ([] ++ [wMsg]) :=
  ⟨by decide, C9_count_tokens_monotone String.length [] wMsg (by decide)⟩

/-! ### MessageClassifier (`memory/classifier.py`) -/

/-- The `STATUS_KEYWORDS` of `MessageClassifier`. -/
def STATUS_KEYWORDS : List String :=
  ["完成", "成功", "已经", "确定", "决定", "最终",
   "结论", "总结", "采用", "选择", "确认",
   "done", "completed", "success", "decided", "conclusion"]

/-- The `REASONING_KEYWORDS` of `MessageClassifier`. -/
def REASONING_KEYWORDS : List String :=
  ["考虑", "分析", "比较", "权衡", "思考", "评估",
   "方案", "选项", "可能", "或者", "如果",
   "think", "consider", "analyze", "compare", "option", "maybe"]

/-- The `FAILURE_KEYWORDS` of `MessageClassifier`. -/
def FAILURE_KEYWORDS : List String :=
  ["失败", "错误", "问题", "无法", "不能", "报错",
   "异常", "bug", "error", "failed", "issue", "cannot"]

/-- Does the pattern `p` occur as the initial segment of `s`? -/
def charsStart : List Char → List Char → Bool
  | [], _ => true
  | _ :: _, [] => false
  | p :: ps, c :: cs => p == c && charsStart ps cs

/-- One left-to-right scan of `re.findall` over an alternation of literal
keywords: at each position the first keyword (in pattern order) matching there
is counted and consumed, otherwise the scan advances one character.  `fuel`
bounds the recursion; every keyword is non-empty, so `fuel = length` always
suffices. -/
def findallCountAux (pats : List (List Char)) : ℕ → List Char → ℕ
  | 0, _ => 0
  | _, [] => 0
  | fuel + 1, c :: cs =>
    match pats.find? (fun p => !p.isEmpty && charsStart p (c :: cs)) with
    | some p => 1 + findallCountAux pats fuel (cs.drop (p.length - 1))
    | none => findallCountAux pats fuel cs

/-- Character-level lowercasing (Python `str.lower` / `re.IGNORECASE`). -/
def lowerChars (s : String) : List Char := s.data.map Char.toLower

/-- Number of matches of `re.findall on the join of the keywords over content with IGNORECASE`:
non-overlapping leftmost matches with the first alternative preferred;
case-insensitivity is modelled by lowercasing both sides. -/
def findallCount (keywords : List String) (content : String) : ℕ :=
  findallCountAux (keywords.map lowerChars) content.data.length (lowerChars content)

/-- Model of `MessageClassifier._classify_by_rules` (the deterministic fallback). -/
def classify_by_rules (m : Message) : MessageType :=
  if m.role = MessageRole.user then MessageType.user
  else
    let failure_matches := findallCount FAILURE_KEYWORDS m.content
    let status_matches := findallCount STATUS_KEYWORDS m.content
    let reasoning_matches := findallCount REASONING_KEYWORDS m.content
    if 2 ≤ failure_matches then MessageType.failure
    else if 2 ≤ status_matches then MessageType.status
    else if 3 ≤ reasoning_matches then MessageType.reasoning
    else MessageType.normal

/-- The list `_parse_response` builds from a parsed index→type map:
`type_map.get(i, NORMAL)` for each `i < expected_count`. -/
def parsedTypes (tm : ℕ → Option MessageType) (n : ℕ) : List MessageType :=
  (List.range n).map (fun i => (tm i).getD MessageType.normal)

/-- First successful attempt of the batched remote call; `none` models an
exception or an unparseable response. -/
def firstOk {α : Type} (attempts : ℕ → Option α) : List ℕ → Option α
  | [] => none
  | k :: rest =>
    match attempts k with
    | some a => some a
    | none => firstOk attempts rest

/-- Model of `MessageClassifier.classify_batch_async`: the batched remote call is tried
`MAX_RETRIES = 3` times; on exhaustion every message is independently
classified by `classify_by_rules`. -/
def classify_batch_async (attempts : ℕ → Option (ℕ → Option MessageType))
    (messages : List Message) : List MessageType :=
  if messages.isEmpty then []
  else
    match firstOk attempts [1, 2, 3] with
    | some tm => parsedTypes tm messages.length
    | none => messages.map classify_by_rules

/-- C8: classification always returns exactly N types in input order, and when
the remote path is exhausted each message is classified independently by the
keyword rules — user role first, then failure (≥2 matches), status (≥2),
reasoning (≥3), else normal, in that priority order. -/
theorem C8_classification (attempts : ℕ → Option (ℕ → Option MessageType))
    (messages : List Message) :
    (classify_batch_async attempts messages).length = messages.length ∧
    ((∀ k, k ∈ [1, 2, 3] → attempts k = none) →
      classify_batch_async attempts messages = messages.map classify_by_rules) ∧
    (∀ m : Message,
      (m.role = MessageRole.user → classify_by_rules m = MessageType.user) ∧
      (m.role ≠ MessageRole.user → 2 ≤ findallCount FAILURE_KEYWORDS m.content →
        classify_by_rules m = MessageType.failure) ∧
      (m.role ≠ MessageRole.user → findallCount FAILURE_KEYWORDS m.content < 2 →
        2 ≤ findallCount STATUS_KEYWORDS m.content →
        classify_by_rules m = MessageType.status) ∧
      (m.role ≠ MessageRole.user → findallCount FAILURE_KEYWORDS m.content < 2 →
        findallCount STATUS_KEYWORDS m.content < 2 →
        3 ≤ findallCount REASONING_KEYWORDS m.content →
        classify_by_rules m = MessageType.reasoning) ∧
      (m.role ≠ MessageRole.user → findallCount FAILURE_KEYWORDS m.content < 2 →
        findallCount STATUS_KEYWORDS m.content < 2 →
        findallCount REASONING_KEYWORDS m.content < 3 →
        classify_by_rules m = MessageType.normal)) := by
  refine ⟨?_, ?_, ?_⟩
  · unfold classify_batch_async
    by_cases he : messages.isEmpty
    · rw [if_pos he]
      have : messages = [] := List.isEmpty_iff.mp he
      simp [this]
    · rw [if_neg he]
      rcases firstOk attempts [1, 2, 3] with _ | tm
      · simp
      · simp [parsedTypes]
  · intro hall
    unfold classify_batch_async
    have hfo : firstOk attempts [1, 2, 3] = none := by
      simp only [firstOk, hall 1 (by simp), hall 2 (by simp), hall 3 (by simp)]
    rw [hfo]
    by_cases he : messages.isEmpty
    · rw [if_pos he]
      have : messages = [] := List.isEmpty_iff.mp he
      simp [this]
    · rw [if_neg he]
  · intro m
    unfold classify_by_rules
    refine ⟨fun h => by rw [if_pos h], fun h hf => ?_, fun h hf hs => ?_,
      fun h hf hs hr => ?_, fun h hf hs hr => ?_⟩
    · rw [if_neg h]; simp only [if_pos hf]
    · rw [if_neg h]; simp only [if_neg (by omega : ¬ 2 ≤ findallCount FAILURE_KEYWORDS m.content),
        if_pos hs]
    · rw [if_neg h]
      simp only [if_neg (by omega : ¬ 2 ≤ findallCount FAILURE_KEYWORDS m.content),
        if_neg (by omega : ¬ 2 ≤ findallCount STATUS_KEYWORDS m.content), if_pos hr]
    · rw [if_neg h]
      simp only [if_neg (by omega : ¬ 2 ≤ findallCount FAILURE_KEYWORDS m.content),
        if_neg (by omega : ¬ 2 ≤ findallCount STATUS_KEYWORDS m.content),
        if_neg (by omega : ¬ 3 ≤ findallCount REASONING_KEYWORDS m.content)]

theorem C8_classification_witness :
    classify_batch_async (fun _ => none) (wMsg :: []) = (wMsg :: []).map classify_by_rules ∧
      classify_by_rules wMsg = MessageType.normal :=
  ⟨(C8_classification (fun _ => none) (wMsg :: [])).2.1 (by intro k _; rfl),
   (((C8_classification (fun _ => none) (wMsg :: [])).2.2 wMsg).2.2.2.2)
     (by decide) (by decide) (by decide) (by decide)⟩

/-! ### ValueScorer (`memory/value_scorer.py`)

Float arithmetic is modelled over ℝ; timestamps are rationals in seconds. -/

/-- Model of `ValueScorer.DEFAULT_WEIGHTS`, with the `weights.get(type, weights[NORMAL])`
lookup (total over the enum). -/
def DEFAULT_WEIGHTS : MessageType → ℝ
  | .user => 10
  | .status => 7
  | .failure => 5
  | .reasoning => 2
  | .normal => 3

/-- Round half to even (the tie behaviour of the Python round builtin). -/
def roundHalfEven {α : Type} [LinearOrderedField α] [FloorRing α]
    [DecidableEq α] (x : α) : ℤ :=
  if Int.fract x = 1 / 2 then (if 2 ∣ ⌊x⌋ then ⌊x⌋ else ⌊x⌋ + 1) else round x

/-- Python `round(x, 4)` over the reals. -/
noncomputable def pyRound4R (x : ℝ) : ℝ := ((roundHalfEven (x * 10 ^ 4) : ℤ) : ℝ) / 10 ^ 4

/-- Model of `ValueScorer.calculate_time_decay`: elapsed hours since `created_at`
(negative elapsed clamps to zero) through `0.5 ^ (hours / 24)` with
`DECAY_HALF_LIFE_HOURS = 24`. -/
noncomputable def calculate_time_decay (created_at reference_time : ℚ) : ℝ :=
  let hours_elapsed : ℚ := (reference_time - created_at) / 3600
  let clamped : ℚ := if hours_elapsed < 0 then 0 else hours_elapsed
  (1 / 2 : ℝ) ^ ((clamped : ℝ) / 24)

/-- Model of `ValueScorer.calculate_value`: `round(weight * time_decay, 4)`. -/
noncomputable def calculate_value (t : MessageType) (created_at reference_time : ℚ) : ℝ :=
  pyRound4R (DEFAULT_WEIGHTS t * calculate_time_decay created_at reference_time)

theorem weights_pos (t : MessageType) : 0 < DEFAULT_WEIGHTS t := by
  cases t <;> norm_num [DEFAULT_WEIGHTS]

theorem time_decay_pos (c r : ℚ) : 0 < calculate_time_decay c r := by
  unfold calculate_time_decay
  exact Real.rpow_pos_of_pos (by norm_num) _

theorem time_decay_eq (c r : ℚ) :
    calculate_time_decay c r =
      (1 / 2 : ℝ) ^
        ((((if (r - c) / 3600 < 0 then (0 : ℚ) else (r - c) / 3600) : ℚ) : ℝ) / 24) := rfl

/-- C5 (amended): the stored value is the 4-decimal rounding of
`weight(type) × 0.5^(hoursElapsed/24)`; negative elapsed time clamps to zero
elapsed (decay 1 whenever the reference time does not exceed the timestamp);
the unrounded value `weight × decay` is strictly decreasing as elapsed time
grows for a fixed type; and at equal timestamps the unrounded user value
strictly exceeds the unrounded reasoning value. -/
theorem C5_value_scorer (t : MessageType) (c c1 c2 r : ℚ) :
    calculate_value t c r = pyRound4R (DEFAULT_WEIGHTS t * calculate_time_decay c r) ∧
      (DEFAULT_WEIGHTS MessageType.user = 10 ∧ DEFAULT_WEIGHTS MessageType.status = 7 ∧
        DEFAULT_WEIGHTS MessageType.failure = 5 ∧ DEFAULT_WEIGHTS MessageType.normal = 3 ∧
        DEFAULT_WEIGHTS MessageType.reasoning = 2) ∧
      (r ≤ c → calculate_time_decay c r = 1) ∧
      (c2 < c1 → c1 ≤ r →
        DEFAULT_WEIGHTS t * calculate_time_decay c2 r <
          DEFAULT_WEIGHTS t * calculate_time_decay c1 r) ∧
      DEFAULT_WEIGHTS MessageType.reasoning * calculate_time_decay c r <
        DEFAULT_WEIGHTS MessageType.user * calculate_time_decay c r := by
  refine ⟨rfl, ⟨rfl, rfl, rfl, rfl, rfl⟩, ?_, ?_, ?_⟩
  · intro hrc
    rw [time_decay_eq]
    have hle : (r - c) / 3600 ≤ 0 := by
      apply div_nonpos_of_nonpos_of_nonneg <;> [linarith; norm_num]
    have hcl : (if (r - c) / 3600 < 0 then (0 : ℚ) else (r - c) / 3600) = 0 := by
      by_cases hlt : (r - c) / 3600 < 0
      · rw [if_pos hlt]
      · rw [if_neg hlt]; linarith
    rw [hcl]
    simp
  · intro h12 h1r
    rw [time_decay_eq c1 r, time_decay_eq c2 r]
    have hne1 : ¬ (r - c1) / 3600 < 0 := by
      have h0 : (0 : ℚ) ≤ r - c1 := by linarith
      exact not_lt.mpr (by positivity)
    have hne2 : ¬ (r - c2) / 3600 < 0 := by
      have h0 : (0 : ℚ) ≤ r - c2 := by linarith
      exact not_lt.mpr (by positivity)
    rw [if_neg hne1, if_neg hne2]
    apply mul_lt_mul_of_pos_left ?_ (weights_pos t)
    apply Real.rpow_lt_rpow_of_exponent_gt (by norm_num) (by norm_num)
    push_cast
    have hlt : ((c2 : ℝ)) < (c1 : ℝ) := by exact_mod_cast h12
    linarith
  · simp only [DEFAULT_WEIGHTS]
    exact mul_lt_mul_of_pos_right (by norm_num) (time_decay_pos c r)

theorem C5_value_scorer_witness :
    ((0 : ℚ) ≤ (3600 : ℚ) ∧
        calculate_time_decay 3600 0 = 1) ∧
      ((-3600 : ℚ) < (0 : ℚ) ∧ (0 : ℚ) ≤ (0 : ℚ) ∧
        DEFAULT_WEIGHTS MessageType.user * calculate_time_decay (-3600) 0 <
          DEFAULT_WEIGHTS MessageType.user * calculate_time_decay 0 0) :=
  ⟨⟨by norm_num, (C5_value_scorer MessageType.user 3600 0 0 0).2.2.1 (by norm_num)⟩,
    by norm_num, le_refl 0,
    (C5_value_scorer MessageType.user 3600 0 (-3600) 0).2.2.2.1 (by norm_num) (le_refl 0)⟩

/-- C5 counterexample (rounding): for a user message 36 hours old the code
stores `round(10 × 0.5^(3/2), 4)`, a rational number, which cannot equal the
exact claimed value `weight × 0.5^(hoursElapsed/24) = (5/2)·√2`, an
irrational number. -/
theorem C5_counterexample :
    calculate_value MessageType.user 0 129600 ≠
      DEFAULT_WEIGHTS MessageType.user * calculate_time_decay 0 129600 := by
  have hd : calculate_time_decay 0 129600 = (1 / 2 : ℝ) ^ ((3 : ℝ) / 2) := by
    rw [time_decay_eq]
    norm_num
  have hval : (1 / 2 : ℝ) ^ ((3 : ℝ) / 2) = Real.sqrt 2 / 4 := by
    have h1 : ((1 : ℝ) / 2) ^ ((3 : ℝ) / 2) = ((2 : ℝ) ^ ((3 : ℝ) / 2))⁻¹ := by
      rw [show ((1 : ℝ) / 2) = (2 : ℝ)⁻¹ by norm_num,
        Real.inv_rpow (by norm_num : (0 : ℝ) ≤ 2)]
    have h2 : (2 : ℝ) ^ ((3 : ℝ) / 2) = 2 * Real.sqrt 2 := by
      rw [show ((3 : ℝ) / 2) = 1 + 1 / 2 by norm_num,
        Real.rpow_add (by norm_num : (0 : ℝ) < 2), Real.rpow_one, ← Real.sqrt_eq_rpow]
    have hs : Real.sqrt 2 * Real.sqrt 2 = 2 := Real.mul_self_sqrt (by norm_num)
    have hpos : 0 < Real.sqrt 2 := Real.sqrt_pos.mpr (by norm_num)
    rw [h1, h2]
    rw [inv_eq_iff_eq_inv, eq_comm, inv_eq_iff_eq_inv, eq_comm]
    field_simp
    nlinarith [hs]
  intro heq
  rw [hd, hval] at heq
  unfold calculate_value pyRound4R at heq
  rw [hd, hval] at heq
  set z : ℤ :=
    roundHalfEven (DEFAULT_WEIGHTS MessageType.user * (Real.sqrt 2 / 4) * 10 ^ 4) with hz
  have hw : DEFAULT_WEIGHTS MessageType.user = (10 : ℝ) := rfl
  rw [hw] at heq
  have hsqrt : Real.sqrt 2 = (((z : ℚ) / 25000 : ℚ) : ℝ) := by
    push_cast
    linarith
  exact irrational_sqrt_two ⟨(z : ℚ) / 25000, hsqrt.symm⟩

/-! ### Long-term memory retrieval scoring and budgeting
(`memory/long_term_memory_service.py`) -/

/-- A candidate row as returned by `LongTermMemoryDAO.list_candidates` and
consumed by `_score_and_filter`.  Optional fields model `row.get(...)` on the
SQL row dict; timestamps are rationals in seconds. -/
structure RetrievalRow where
  id : String
  scope : String := ""
  memory_type : String := ""
  content : String
  confidence : Option ℚ := none
  updated_at : Option ℚ := none
  decay_score : Option ℚ := none
  vector_score : Option ℚ := none
deriving DecidableEq, Repr

/-- Python `round(x, 4)` over ℚ. -/
def pyRound4Q (x : ℚ) : ℚ := ((roundHalfEven (x * 10 ^ 4) : ℤ) : ℚ) / 10 ^ 4

/-- Membership in the character class `[一-鿿A-Za-z0-9]` of the token
regex in `_lexical_score`. -/
def isWordChar (c : Char) : Bool :=
  (0x4e00 ≤ c.toNat && c.toNat ≤ 0x9fff) ||
    (('A' ≤ c && c ≤ 'Z') || ('a' ≤ c && c ≤ 'z') || ('0' ≤ c && c ≤ '9'))

/-- Maximal runs of word characters (`re.findall` of the token class),
accumulating the current run in reverse. -/
def wordRunsAux : List Char → List Char → List String
  | [], acc => if acc.isEmpty then [] else [acc.reverse.asString]
  | c :: cs, acc =>
    if isWordChar c then wordRunsAux cs (c :: acc)
    else if acc.isEmpty then wordRunsAux cs []
    else acc.reverse.asString :: wordRunsAux cs []

/-- Python `str.strip()`: drop leading and trailing whitespace. -/
def pyStrip (s : String) : String :=
  (((s.data.dropWhile Char.isWhitespace).reverse.dropWhile Char.isWhitespace).reverse).asString

/-- Model of `_lexical_score` (`long_term_memory_service.py`).  Here `seqRatio` is the
`difflib.SequenceMatcher(...).ratio()` collaborator (a float in [0,1]). -/
def lexicalScore (seqRatio : String → String → ℚ) (query content : String) : ℚ :=
  let q := (lowerChars (pyStrip query)).asString
  let c := (lowerChars (pyStrip content)).asString
  if q = "" || c = "" then 0
  else
    let sr := seqRatio q c
    let qTokens := (wordRunsAux q.data []).dedup
    let cTokens := (wordRunsAux c.data []).dedup
    let overlap : ℚ :=
      ((qTokens.filter (fun t => cTokens.contains t)).length : ℚ) /
        ((max 1 qTokens.length : ℕ) : ℚ)
    min 1 (6 / 10 * sr + 4 / 10 * overlap)

/-- Model of `_recency_bonus` (`long_term_memory_service.py`): a step function of the
age in hours at `now` (`datetime.now()`), 0 when no timestamp is known. -/
def recencyBonus (now : ℚ) (updated_at : Option ℚ) : ℚ :=
  match updated_at with
  | none => 0
  | some t =>
    let age_hours : ℚ := max 0 ((now - t) / 3600)
    if age_hours ≤ 24 then 1
    else if age_hours ≤ 24 * 7 then 6 / 10
    else if age_hours ≤ 24 * 30 then 3 / 10
    else 1 / 10

/-- Effective value of `float(row.get("confidence", 0.0) or 0.0)`. -/
def rowConfidence (row : RetrievalRow) : ℚ := row.confidence.getD 0

/-- Effective value of `float(row.get("decay_score", 1.0) or 1.0)`: `None` and the falsy `0.0`
both yield `1.0`. -/
def rowDecay (row : RetrievalRow) : ℚ :=
  match row.decay_score with
  | none => 1
  | some d => if d = 0 then 1 else d

/-- Effective value of `float(row.get("vector_score", 0.0) or 0.0)` clamped into [0, 1]. -/
def rowVectorClamped (row : RetrievalRow) : ℚ := max 0 (min 1 (row.vector_score.getD 0))

/-- The relevance score computed inside `_score_and_filter`: the vector branch
is taken exactly when the clamped vector score is strictly positive. -/
def scoreRow (seqRatio : String → String → ℚ) (now : ℚ) (query : String)
    (row : RetrievalRow) : ℚ :=
  let lexical := lexicalScore seqRatio query row.content
  let recency := recencyBonus now row.updated_at
  let decay := rowDecay row
  let vs := rowVectorClamped row
  if 0 < vs then
    40 / 100 * vs + 25 / 100 * lexical + 20 / 100 * rowConfidence row +
      10 / 100 * recency + 5 / 100 * decay
  else
    55 / 100 * lexical + 25 / 100 * rowConfidence row + 1 / 10 * recency + 1 / 10 * decay

/-- A row annotated by `_score_and_filter` (`row["vector_score"]` and
`row["retrieval_score"]` rounded to 4 decimals). -/
structure ScoredRow where
  row : RetrievalRow
  retrieval_score : ℚ
deriving DecidableEq, Repr

/-- The dedup / score / filter loop of `_score_and_filter`; `seen` is the set
of already-encountered memory ids (a falsy id skips the row). -/
def scoreAndFilterAux (seqRatio : String → String → ℚ) (now : ℚ) (query : String)
    (min_score : ℚ) : List RetrievalRow → List String → List ScoredRow
  | [], _ => []
  | row :: rest, seen =>
    if row.id = "" || seen.contains row.id then
      scoreAndFilterAux seqRatio now query min_score rest seen
    else
      let seen := row.id :: seen
      let score := scoreRow seqRatio now query row
      if score < min_score then scoreAndFilterAux seqRatio now query min_score rest seen
      else
        { row := { row with vector_score := some (pyRound4Q (rowVectorClamped row)) },
            retrieval_score := pyRound4Q score } ::
          scoreAndFilterAux seqRatio now query min_score rest seen

/-- Sort key of `scored.sort(key=..., reverse=True)` (stable descending). -/
def scoredGe (a b : ScoredRow) : Bool := b.retrieval_score ≤ a.retrieval_score

/-- Model of `LongTermMemoryService._score_and_filter`. -/
def score_and_filter (seqRatio : String → String → ℚ) (now : ℚ)
    (rows : List RetrievalRow) (query : String) (min_score : ℚ) : List ScoredRow :=
  (scoreAndFilterAux seqRatio now query min_score rows []).mergeSort scoredGe

/-- Model of `LongTermMemoryService._count_tokens`: 0 for empty text, the tiktoken
count when the encoder is available, else `max(1, len(text) // 2)`. -/
def count_tokens_svc (encoder : Option (String → ℕ)) (text : String) : ℕ :=
  if text = "" then 0
  else
    match encoder with
    | some enc => enc text
    | none => max 1 (text.length / 2)

/-- The budget `max(128, int(max_context_tokens * ratio))` computed in
`_apply_budget`. -/
def token_budget (max_context_tokens : ℕ) (rate : ℚ) : ℤ :=
  max 128 (pyInt ((max_context_tokens : ℚ) * rate))

/-- The greedy loop of `_apply_budget`: stop at `top_n` selections, skip any
row whose content alone would overflow the remaining budget. -/
def applyBudgetAux (encoder : Option (String → ℕ)) (budget : ℤ) (top_n : ℕ) :
    List ScoredRow → List ScoredRow → ℤ → List ScoredRow
  | [], selected, _ => selected
  | row :: rest, selected, used =>
    if top_n ≤ selected.length then selected
    else
      let t : ℤ := count_tokens_svc encoder row.row.content
      if budget < used + t then applyBudgetAux encoder budget top_n rest selected used
      else applyBudgetAux encoder budget top_n rest (selected ++ [row]) (used + t)

/-- Model of `LongTermMemoryService._apply_budget`. -/
def apply_budget (encoder : Option (String → ℕ)) (rows : List ScoredRow)
    (max_context_tokens : ℕ) (rate : ℚ) (top_n : ℕ) : List ScoredRow :=
  applyBudgetAux encoder (token_budget max_context_tokens rate) top_n rows [] 0

/-- Summed content tokens of a selection. -/
def sumTokens (encoder : Option (String → ℕ)) (l : List ScoredRow) : ℤ :=
  (l.map (fun r => (count_tokens_svc encoder r.row.content : ℤ))).sum

theorem applyBudgetAux_bounds (encoder : Option (String → ℕ)) (budget : ℤ) (top_n : ℕ) :
    ∀ (rows selected : List ScoredRow) (used : ℤ),
      used = sumTokens encoder selected → used ≤ budget → selected.length ≤ top_n →
      sumTokens encoder (applyBudgetAux encoder budget top_n rows selected used) ≤ budget ∧
        (applyBudgetAux encoder budget top_n rows selected used).length ≤ top_n := by
  intro rows
  induction rows with
  | nil => intro selected used hsum hle hlen; rw [applyBudgetAux]; omega
  | cons row rest ih =>
    intro selected used hsum hle hlen
    rw [applyBudgetAux]
    by_cases hfull : top_n ≤ selected.length
    · rw [if_pos hfull]; omega
    · rw [if_neg hfull]
      by_cases hover : budget < used + (count_tokens_svc encoder row.row.content : ℤ)
      · rw [if_pos hover]
        exact ih selected used hsum hle hlen
      · rw [if_neg hover]
        refine ih (selected ++ [row]) _ ?_ (by omega) ?_
        · unfold sumTokens at hsum ⊢
          simp only [List.map_append, List.sum_append, List.map_cons, List.map_nil,
            List.sum_cons, List.sum_nil]
          omega
        · simp only [List.length_append, List.length_cons, List.length_nil]
          omega

theorem apply_budget_skip_head (encoder : Option (String → ℕ)) (r : ScoredRow)
    (rest : List ScoredRow) (max_context_tokens : ℕ) (rate : ℚ) (top_n : ℕ)
    (hover : token_budget max_context_tokens rate < (count_tokens_svc encoder r.row.content : ℤ))
    (hpos : 0 < top_n) :
    apply_budget encoder (r :: rest) max_context_tokens rate top_n =
      apply_budget encoder rest max_context_tokens rate top_n := by
  unfold apply_budget
  rw [applyBudgetAux]
  rw [if_neg (by simp; omega), if_pos (by omega)]

theorem scoreAndFilterAux_low_empty (seqRatio : String → String → ℚ) (now : ℚ)
    (query : String) (min_score : ℚ) :
    ∀ (rows : List RetrievalRow) (seen : List String),
      (∀ row ∈ rows, scoreRow seqRatio now query row < min_score) →
      scoreAndFilterAux seqRatio now query min_score rows seen = [] := by
  intro rows
  induction rows with
  | nil => intro seen _; rfl
  | cons row rest ih =>
    intro seen hall
    rw [scoreAndFilterAux]
    by_cases hskip : row.id = "" || seen.contains row.id
    · rw [if_pos hskip]
      exact ih seen (fun r hr => hall r (List.mem_cons_of_mem _ hr))
    · rw [if_neg hskip]
      rw [if_pos (hall row (List.mem_cons_self ..))]
      exact ih _ (fun r hr => hall r (List.mem_cons_of_mem _ hr))

/-- C4 (amended): budgeted selection never exceeds the token budget
`max(128, maxContextTokens × injectionRatio)` in summed content tokens and
never selects more than `top_n` records; a record whose content alone
overflows the budget is skipped rather than stopping the scan; and the result
is empty whenever no candidate scores at or above `min_score` (the converse
direction of the claimed "iff" is false, see the counterexample). -/
theorem C4_budget_selection (seqRatio : String → String → ℚ) (now : ℚ)
    (encoder : Option (String → ℕ)) (rows : List RetrievalRow) (query : String)
    (min_score : ℚ) (max_context_tokens : ℕ) (rate : ℚ) (top_n : ℕ) :
    sumTokens encoder
        (apply_budget encoder (score_and_filter seqRatio now rows query min_score)
          max_context_tokens rate top_n) ≤ token_budget max_context_tokens rate ∧
      (apply_budget encoder (score_and_filter seqRatio now rows query min_score)
          max_context_tokens rate top_n).length ≤ top_n ∧
      (∀ (r : ScoredRow) (rest : List ScoredRow),
        token_budget max_context_tokens rate < (count_tokens_svc encoder r.row.content : ℤ) →
        0 < top_n →
        apply_budget encoder (r :: rest) max_context_tokens rate top_n =
          apply_budget encoder rest max_context_tokens rate top_n) ∧
      ((∀ row ∈ rows, scoreRow seqRatio now query row < min_score) →
        apply_budget encoder (score_and_filter seqRatio now rows query min_score)
          max_context_tokens rate top_n = []) := by
  have hb : (0 : ℤ) ≤ token_budget max_context_tokens rate :=
    le_trans (by norm_num) (le_max_left ..)
  refine ⟨?_, ?_, ?_, ?_⟩
  · exact (applyBudgetAux_bounds encoder _ top_n _ [] 0 rfl hb (by simp)).1
  · exact (applyBudgetAux_bounds encoder _ top_n _ [] 0 rfl hb (by simp)).2
  · intro r rest hover hpos
    exact apply_budget_skip_head encoder r rest max_context_tokens rate top_n hover hpos
  · intro hall
    unfold apply_budget score_and_filter
    rw [scoreAndFilterAux_low_empty seqRatio now query min_score rows [] hall,
      List.mergeSort_nil]
    rfl

/-- The candidate used to refute the "empty iff" direction of C4: its single
content is 300 characters, 150 estimated tokens, more than the whole
128-token budget. -/
def cBigRow : RetrievalRow :=
  { id := "m1", content := String.mk (List.replicate 300 'a'), confidence := some 1 }

theorem token_budget_zero : token_budget 0 0 = 128 := by
  unfold token_budget pyInt
  norm_num

theorem count_tokens_big :
    count_tokens_svc none (String.mk (List.replicate 300 'a')) = 150 := by
  unfold count_tokens_svc
  rw [if_neg (by decide)]
  show max 1 ((String.mk (List.replicate 300 'a')).length / 2) = 150
  rw [show (String.mk (List.replicate 300 'a')).length = (List.replicate 300 'a').length from rfl,
    List.length_replicate]
  decide

theorem lexical_empty_query (seqRatio : String → String → ℚ) (content : String) :
    lexicalScore seqRatio "" content = 0 := rfl

theorem rowVectorClamped_of_none {row : RetrievalRow} (h : row.vector_score = none) :
    rowVectorClamped row = 0 := by
  rw [rowVectorClamped, h]
  show max 0 (min 1 (Option.getD none 0)) = 0
  rw [Option.getD_none, min_eq_right (by norm_num : (0 : ℚ) ≤ 1), max_self]

theorem scoreRow_cBigRow : scoreRow (fun _ _ => 0) 0 "" cBigRow = 7 / 20 := by
  rw [scoreRow]
  simp only [lexical_empty_query,
    rowVectorClamped_of_none (show cBigRow.vector_score = none from rfl)]
  norm_num [rowConfidence, rowDecay, recencyBonus, cBigRow]

theorem C4_budget_selection_witness :
    token_budget 0 0 < (count_tokens_svc none (String.mk (List.replicate 300 'a')) : ℤ) ∧
      0 < 5 ∧
      apply_budget none
          ({ row := { id := "m1", content := String.mk (List.replicate 300 'a') },
             retrieval_score := 0 } :: []) 0 0 5 =
        apply_budget none [] 0 0 5 :=
  ⟨by rw [token_budget_zero, count_tokens_big]; norm_num, by norm_num,
    (C4_budget_selection (fun _ _ => 0) 0 none [] "" 0 0 0 5).2.2.1
      { row := { id := "m1", content := String.mk (List.replicate 300 'a') },
        retrieval_score := 0 } []
      (by rw [token_budget_zero, count_tokens_big]; norm_num) (by norm_num)⟩

set_option maxRecDepth 40000 in
/-- C4 counterexample: with `min_score = 0` the single candidate scores
`0.35 ≥ 0`, yet the budgeted selection is empty because the content of the candidate
alone overflows the 128-token floor budget — so "empty iff no
candidate clears minScore" fails in the only-if direction. -/
theorem C4_counterexample :
    (0 : ℚ) ≤ scoreRow (fun _ _ => 0) 0 "" cBigRow ∧
      apply_budget none (score_and_filter (fun _ _ => 0) 0 (cBigRow :: []) "" 0) 0 0 5 = [] := by
  refine ⟨by rw [scoreRow_cBigRow]; norm_num, ?_⟩
  have hs : scoreAndFilterAux (fun _ _ => 0) 0 "" 0 (cBigRow :: []) [] =
      ({ row := { cBigRow with vector_score := some (pyRound4Q (rowVectorClamped cBigRow)) },
         retrieval_score := pyRound4Q (scoreRow (fun _ _ => 0) 0 "" cBigRow) } :: []) := by
    rw [scoreAndFilterAux]
    rw [if_neg (by decide)]
    show (if scoreRow (fun _ _ => 0) 0 "" cBigRow < (0 : ℚ) then
        scoreAndFilterAux (fun _ _ => 0) 0 "" 0 [] [cBigRow.id]
      else
        { row := { cBigRow with vector_score := some (pyRound4Q (rowVectorClamped cBigRow)) },
            retrieval_score := pyRound4Q (scoreRow (fun _ _ => 0) 0 "" cBigRow) } ::
          scoreAndFilterAux (fun _ _ => 0) 0 "" 0 [] [cBigRow.id]) = _
    rw [if_neg (by rw [scoreRow_cBigRow]; norm_num)]
    rfl
  unfold score_and_filter
  rw [hs, List.mergeSort_singleton]
  have hover : token_budget 0 0 < (count_tokens_svc none cBigRow.content : ℤ) := by
    rw [token_budget_zero, show count_tokens_svc none cBigRow.content = 150 from count_tokens_big]
    norm_num
  rw [apply_budget_skip_head none _ [] 0 0 5 hover (by norm_num)]
  rfl

/-- C6 (amended): the relevance score equals
`0.40·vectorScore + 0.25·lexical + 0.20·confidence + 0.10·recency + 0.05·decay`
exactly when the clamped vector score is strictly positive, and
`0.55·lexical + 0.25·confidence + 0.10·recency + 0.10·decay` otherwise — in
particular also when the row carries a vector score that is present but equal
to 0. -/
theorem C6_score_formula (seqRatio : String → String → ℚ) (now : ℚ) (query : String)
    (row : RetrievalRow) :
    (0 < rowVectorClamped row →
      scoreRow seqRatio now query row =
        40 / 100 * rowVectorClamped row +
          25 / 100 * lexicalScore seqRatio query row.content +
          20 / 100 * rowConfidence row + 10 / 100 * recencyBonus now row.updated_at +
          5 / 100 * rowDecay row) ∧
    (rowVectorClamped row = 0 →
      scoreRow seqRatio now query row =
        55 / 100 * lexicalScore seqRatio query row.content + 25 / 100 * rowConfidence row +
          1 / 10 * recencyBonus now row.updated_at + 1 / 10 * rowDecay row) := by
  constructor
  · intro h
    rw [scoreRow, if_pos h]
  · intro h
    rw [scoreRow, if_neg (by rw [h]; exact lt_irrefl 0)]

/-- A row with a positive vector score, used by the C6 witness. -/
def wVecRow : RetrievalRow := { id := "m2", content := "c", vector_score := some (1 / 2) }

theorem rowVectorClamped_wVecRow : rowVectorClamped wVecRow = 1 / 2 := by
  rw [rowVectorClamped]
  show max 0 (min 1 (Option.getD (some (1 / 2)) 0)) = 1 / 2
  rw [Option.getD_some, min_eq_right (by norm_num : (1 / 2 : ℚ) ≤ 1),
    max_eq_right (by norm_num : (0 : ℚ) ≤ 1 / 2)]

theorem C6_score_formula_witness :
    0 < rowVectorClamped wVecRow ∧
      scoreRow (fun _ _ => 0) 0 "" wVecRow =
        40 / 100 * rowVectorClamped wVecRow +
          25 / 100 * lexicalScore (fun _ _ => 0) "" wVecRow.content +
          20 / 100 * rowConfidence wVecRow + 10 / 100 * recencyBonus 0 wVecRow.updated_at +
          5 / 100 * rowDecay wVecRow :=
  ⟨by rw [rowVectorClamped_wVecRow]; norm_num,
    (C6_score_formula (fun _ _ => 0) 0 "" wVecRow).1
      (by rw [rowVectorClamped_wVecRow]; norm_num)⟩

/-- The row refuting C6 as stated: a vector score is present on the row but
equals 0. -/
def cZeroVecRow : RetrievalRow :=
  { id := "m3", content := "c", confidence := some 1, vector_score := some 0 }

theorem rowVectorClamped_cZeroVecRow : rowVectorClamped cZeroVecRow = 0 := by
  rw [rowVectorClamped]
  show max 0 (min 1 (Option.getD (some 0) 0)) = 0
  rw [Option.getD_some, min_eq_right (by norm_num : (0 : ℚ) ≤ 1), max_self]

theorem scoreRow_cZeroVecRow : scoreRow (fun _ _ => 0) 0 "" cZeroVecRow = 7 / 20 := by
  rw [scoreRow]
  simp only [lexical_empty_query, rowVectorClamped_cZeroVecRow]
  norm_num [rowConfidence, rowDecay, recencyBonus, cZeroVecRow]

/-- C6 counterexample: a candidate annotated with a present vector score of
exactly 0 is scored by the no-vector branch (0.35 here), not by the vector
branch of the claim (0.25 here). -/
theorem C6_counterexample :
    cZeroVecRow.vector_score = some 0 ∧
      scoreRow (fun _ _ => 0) 0 "" cZeroVecRow ≠
        40 / 100 * rowVectorClamped cZeroVecRow +
          25 / 100 * lexicalScore (fun _ _ => 0) "" cZeroVecRow.content +
          20 / 100 * rowConfidence cZeroVecRow + 10 / 100 * recencyBonus 0 cZeroVecRow.updated_at +
          5 / 100 * rowDecay cZeroVecRow := by
  refine ⟨rfl, ?_⟩
  rw [scoreRow_cZeroVecRow, rowVectorClamped_cZeroVecRow, lexical_empty_query]
  norm_num [rowConfidence, rowDecay, recencyBonus, cZeroVecRow]

/-! ### MemoryGateway / LongTermMemoryDAO idempotent upsert
(`memory/memory_gateway.py`, `dao/long_term_memory_dao.py`) -/

/-- Python `str.split()` on whitespace runs (no empty fields), accumulating
the current field in reverse. -/
def pySplitWsAux : List Char → List Char → List String
  | [], acc => if acc.isEmpty then [] else [acc.reverse.asString]
  | c :: cs, acc =>
    if c.isWhitespace then
      if acc.isEmpty then pySplitWsAux cs []
      else acc.reverse.asString :: pySplitWsAux cs []
    else pySplitWsAux cs (c :: acc)

/-- Model of `_normalize_text` (`memory/memory_gateway.py`):
`" ".join(text.strip().split()).lower()`. -/
def normalize_text (text : String) : String :=
  (lowerChars (" ".intercalate (pySplitWsAux (pyStrip text).data []))).asString

/-- A candidate memory dict as passed to `MemoryGateway.add_memories`
(prepared by `LongTermMemoryService._prepare_memories`). -/
structure MemoryCandidate where
  scope : String
  user_id : String
  group_id : Option String := none
  member_id : Option String := none
  persona_version : Option String := none
  memory_type : String := "discussion_asset"
  content : String
  confidence : ℚ := 8 / 10
  source_message_id : Option String := none
  source_created_at : Option ℚ := none
  expires_at : Option ℚ := none
  metadata : Option String := none
deriving DecidableEq, Repr

/-- A row of the `long_term_memories` table as far as `upsert_memory` reads
and writes it.  The uuid4 primary key is modelled by a counter-issued ℕ. -/
structure MemRow where
  id : ℕ
  scope : String
  user_id : String
  group_id : Option String := none
  member_id : Option String := none
  persona_version : Option String := none
  memory_type : String := "discussion_asset"
  content : String
  confidence : ℚ := 8 / 10
  fingerprint : String
  source_message_id : Option String := none
  source_created_at : Option ℚ := none
  expires_at : Option ℚ := none
  metadata : Option String := none
  embedding : Option String := none
  embedding_model : Option String := none
  is_active : Bool := true
deriving DecidableEq, Repr

/-- The long-term-memory store: table rows in insertion order plus the id
supply standing in for `uuid4()`. -/
structure MemStore where
  rows : List MemRow
  nextId : ℕ
deriving DecidableEq, Repr

/-- The composite key of `_find_duplicate`: `(scope, user_id,
COALESCE of group_id, member_id and persona_version with the empty string,
and the fingerprint)`. -/
abbrev MemKey := String × String × String × String × String × String

/-- The composite key of a stored row. -/
def rowKey (r : MemRow) : MemKey :=
  (r.scope, r.user_id, r.group_id.getD "", r.member_id.getD "",
    r.persona_version.getD "", r.fingerprint)

/-- The composite key of an incoming record with its fingerprint. -/
def recKey (c : MemoryCandidate) (fingerprint : String) : MemKey :=
  (c.scope, c.user_id, c.group_id.getD "", c.member_id.getD "",
    c.persona_version.getD "", fingerprint)

/-- Model of `LongTermMemoryDAO._find_duplicate`: the first stored row matching the
composite key (`LIMIT 1` in insertion order). -/
def find_duplicate (st : MemStore) (k : MemKey) : Option MemRow :=
  st.rows.find? (fun r => rowKey r = k)

/-- The row written by the `UPDATE` branch of `upsert_memory`: content,
confidence, source, expiry and metadata refreshed and the row reactivated;
the embedding columns are touched only when pgvector is available and an
embedding literal was supplied. -/
def updateRow (vector_available : Bool) (c : MemoryCandidate)
    (embedding : Option String) (embedding_model : Option String) (r : MemRow) : MemRow :=
  if vector_available && embedding.isSome then
    { r with
      content := c.content
      confidence := c.confidence
      source_message_id := c.source_message_id
      source_created_at := c.source_created_at
      expires_at := c.expires_at
      metadata := c.metadata
      embedding := embedding
      embedding_model := embedding_model
      is_active := true }
  else
    { r with
      content := c.content
      confidence := c.confidence
      source_message_id := c.source_message_id
      source_created_at := c.source_created_at
      expires_at := c.expires_at
      metadata := c.metadata
      is_active := true }

/-- Model of `LongTermMemoryDAO.upsert_memory`: look up by the composite key; on a hit
update that row in place and return its id, otherwise insert a fresh row under
a fresh id. -/
def upsert_memory (vector_available : Bool) (st : MemStore) (c : MemoryCandidate)
    (fingerprint : String) (embedding : Option String) (embedding_model : Option String) :
    ℕ × MemStore :=
  match find_duplicate st (recKey c fingerprint) with
  | some dup =>
    (dup.id,
      { st with rows := st.rows.map (fun r =>
          if r.id = dup.id then updateRow vector_available c embedding embedding_model r
          else r) })
  | none =>
    (st.nextId,
      { rows := st.rows ++
          [{ id := st.nextId, scope := c.scope, user_id := c.user_id,
             group_id := c.group_id, member_id := c.member_id,
             persona_version := c.persona_version, memory_type := c.memory_type,
             content := c.content, confidence := c.confidence, fingerprint := fingerprint,
             source_message_id := c.source_message_id,
             source_created_at := c.source_created_at, expires_at := c.expires_at,
             metadata := c.metadata,
             embedding := if vector_available && embedding.isSome then embedding else none,
             embedding_model :=
               if vector_available && embedding.isSome then embedding_model else none,
             is_active := true }],
        nextId := st.nextId + 1 })

/-- The fingerprint key of a candidate: `hash` is the sha-256 collaborator
applied to the normalized stripped content. -/
def candKey (hash : String → String) (c : MemoryCandidate) : MemKey :=
  recKey c (hash (normalize_text (pyStrip c.content)))

/-- Model of `MemoryGateway.add_memories` (`memory/memory_gateway.py`): skip falsy
stripped contents, fingerprint the normalized content, upsert each record.
`lits idx` is the embedding literal computed up front for position `idx`
(`none` models a failed or disabled embedding) and `model_name` is
`self.embedding.model`.  The best-effort Mem0 mirror does not touch the local
store and is omitted. -/
def add_memories_go (hash : String → String) (vector_available : Bool)
    (lits : ℕ → Option String) (model_name : String) :
    MemStore → ℕ → List MemoryCandidate → List ℕ × MemStore
  | st, _, [] => ([], st)
  | st, idx, c :: rest =>
    if pyStrip c.content = "" then
      add_memories_go hash vector_available lits model_name st (idx + 1) rest
    else
      let lit := lits idx
      let res := upsert_memory vector_available st c
        (hash (normalize_text (pyStrip c.content))) lit
        (if lit.isSome then some model_name else none)
      let tail := add_memories_go hash vector_available lits model_name res.2 (idx + 1) rest
      (res.1 :: tail.1, tail.2)

/-- Model of `MemoryGateway.add_memories`, returning the memory ids and final store. -/
def add_memories (hash : String → String) (vector_available : Bool)
    (lits : ℕ → Option String) (model_name : String) (st : MemStore)
    (memories : List MemoryCandidate) : List ℕ × MemStore :=
  add_memories_go hash vector_available lits model_name st 0 memories

/-- The (id, key) projection of the store: everything the returned ids can
depend on. -/
def projStore (st : MemStore) : List (ℕ × MemKey) :=
  st.rows.map (fun r => (r.id, rowKey r))

/-- First id stored under a key, on the projection. -/
def findId (l : List (ℕ × MemKey)) (k : MemKey) : Option ℕ :=
  (l.find? (fun e => e.2 = k)).map (fun e => e.1)

theorem find_duplicate_proj (st : MemStore) (k : MemKey) :
    (find_duplicate st k).map MemRow.id = findId (projStore st) k := by
  unfold find_duplicate findId projStore
  induction st.rows with
  | nil => rfl
  | cons r rest ih =>
    by_cases h : rowKey r = k
    · simp [List.find?_cons, h]
    · have hd : decide (rowKey r = k) = false := by simpa using h
      simp only [List.find?_cons, List.map_cons, hd]
      exact ih

theorem updateRow_id (va : Bool) (c : MemoryCandidate) (e em : Option String) (r : MemRow) :
    (updateRow va c e em r).id = r.id := by
  unfold updateRow
  split <;> rfl

theorem updateRow_key (va : Bool) (c : MemoryCandidate) (e em : Option String) (r : MemRow) :
    rowKey (updateRow va c e em r) = rowKey r := by
  unfold updateRow
  split <;> rfl

theorem upsert_proj_found (va : Bool) (st : MemStore) (c : MemoryCandidate)
    (fp : String) (e em : Option String) (dup : MemRow)
    (h : find_duplicate st (recKey c fp) = some dup) :
    (upsert_memory va st c fp e em).1 = dup.id ∧
      projStore (upsert_memory va st c fp e em).2 = projStore st ∧
      (upsert_memory va st c fp e em).2.nextId = st.nextId := by
  unfold upsert_memory
  rw [h]
  refine ⟨rfl, ?_, rfl⟩
  unfold projStore
  simp only [List.map_map]
  apply List.map_congr_left
  intro r _
  by_cases hid : r.id = dup.id
  · simp [Function.comp, hid, updateRow_id, updateRow_key]
  · simp [Function.comp, hid]

theorem upsert_proj_none (va : Bool) (st : MemStore) (c : MemoryCandidate)
    (fp : String) (e em : Option String)
    (h : find_duplicate st (recKey c fp) = none) :
    (upsert_memory va st c fp e em).1 = st.nextId ∧
      projStore (upsert_memory va st c fp e em).2 =
        projStore st ++ [(st.nextId, recKey c fp)] ∧
      (upsert_memory va st c fp e em).2.nextId = st.nextId + 1 := by
  unfold upsert_memory
  rw [h]
  refine ⟨rfl, ?_, rfl⟩
  unfold projStore
  simp [rowKey, recKey]

/-- Ghost replay of `add_memories` on the (id, key) projection: the returned
ids depend only on the keys present and the id supply. -/
def ghostGo (hash : String → String) :
    List (ℕ × MemKey) → ℕ → List MemoryCandidate → List ℕ × List (ℕ × MemKey) × ℕ
  | L, n, [] => ([], L, n)
  | L, n, c :: rest =>
    if pyStrip c.content = "" then ghostGo hash L n rest
    else
      match findId L (candKey hash c) with
      | some i => (i :: (ghostGo hash L n rest).1, (ghostGo hash L n rest).2)
      | none =>
        (n :: (ghostGo hash (L ++ [(n, candKey hash c)]) (n + 1) rest).1,
          (ghostGo hash (L ++ [(n, candKey hash c)]) (n + 1) rest).2)

theorem ghostGo_cons_skip (hash : String → String) (c : MemoryCandidate)
    (rest : List MemoryCandidate) (L : List (ℕ × MemKey)) (n : ℕ)
    (h : pyStrip c.content = "") :
    ghostGo hash L n (c :: rest) = ghostGo hash L n rest := by
  rw [ghostGo, if_pos h]

theorem ghostGo_cons_found (hash : String → String) (c : MemoryCandidate)
    (rest : List MemoryCandidate) (L : List (ℕ × MemKey)) (n i : ℕ)
    (h : ¬ pyStrip c.content = "") (hf : findId L (candKey hash c) = some i) :
    ghostGo hash L n (c :: rest) =
      (i :: (ghostGo hash L n rest).1, (ghostGo hash L n rest).2) := by
  rw [ghostGo, if_neg h, hf]

theorem ghostGo_cons_none (hash : String → String) (c : MemoryCandidate)
    (rest : List MemoryCandidate) (L : List (ℕ × MemKey)) (n : ℕ)
    (h : ¬ pyStrip c.content = "") (hf : findId L (candKey hash c) = none) :
    ghostGo hash L n (c :: rest) =
      (n :: (ghostGo hash (L ++ [(n, candKey hash c)]) (n + 1) rest).1,
        (ghostGo hash (L ++ [(n, candKey hash c)]) (n + 1) rest).2) := by
  rw [ghostGo, if_neg h, hf]

theorem findId_append_of_some (L M : List (ℕ × MemKey)) (k : MemKey) (i : ℕ)
    (h : findId L k = some i) : findId (L ++ M) k = some i := by
  unfold findId at h ⊢
  rw [List.find?_append]
  rcases hf : L.find? (fun e => decide (e.2 = k)) with _ | e
  · rw [hf] at h; simp at h
  · rw [hf] at h ⊢
    exact h

theorem ghostGo_state_append (hash : String → String) :
    ∀ (batch : List MemoryCandidate) (L : List (ℕ × MemKey)) (n : ℕ),
      ∃ M, (ghostGo hash L n batch).2.1 = L ++ M := by
  intro batch
  induction batch with
  | nil => intro L n; exact ⟨[], by simp [ghostGo]⟩
  | cons c rest ih =>
    intro L n
    by_cases hskip : pyStrip c.content = ""
    · rw [ghostGo_cons_skip hash c rest L n hskip]
      exact ih L n
    · rcases hf : findId L (candKey hash c) with _ | i
      · rw [ghostGo_cons_none hash c rest L n hskip hf]
        obtain ⟨M, hM⟩ := ih (L ++ [(n, candKey hash c)]) (n + 1)
        exact ⟨[(n, candKey hash c)] ++ M, by simp [hM]⟩
      · rw [ghostGo_cons_found hash c rest L n i hskip hf]
        exact ih L n

theorem ghostGo_findId_stable (hash : String → String)
    (batch : List MemoryCandidate) (L : List (ℕ × MemKey)) (n : ℕ) (k : MemKey) (i : ℕ)
    (h : findId L k = some i) : findId (ghostGo hash L n batch).2.1 k = some i := by
  obtain ⟨M, hM⟩ := ghostGo_state_append hash batch L n
  rw [hM]
  exact findId_append_of_some L M k i h

theorem ghostGo_idem (hash : String → String) :
    ∀ (batch : List MemoryCandidate) (L : List (ℕ × MemKey)) (n : ℕ),
      ghostGo hash (ghostGo hash L n batch).2.1 (ghostGo hash L n batch).2.2 batch =
        ghostGo hash L n batch := by
  intro batch
  induction batch with
  | nil => intro L n; rfl
  | cons c rest ih =>
    intro L n
    by_cases hskip : pyStrip c.content = ""
    · rw [ghostGo_cons_skip hash c rest L n hskip]
      rw [ghostGo_cons_skip hash c rest _ _ hskip]
      exact ih L n
    · rcases hf : findId L (candKey hash c) with _ | i
      · -- first run inserts a fresh id `n` under the key
        rw [ghostGo_cons_none hash c rest L n hskip hf]
        have hfk : findId (L ++ [(n, candKey hash c)]) (candKey hash c) = some n := by
          unfold findId at hf ⊢
          rw [List.find?_append]
          rcases hff : L.find? (fun e => decide (e.2 = candKey hash c)) with _ | e
          · rw [hff]
            simp
          · rw [hff] at hf; simp at hf
        have hstable := ghostGo_findId_stable hash rest
          (L ++ [(n, candKey hash c)]) (n + 1) (candKey hash c) n hfk
        rw [ghostGo_cons_found hash c rest _ _ n hskip hstable]
        rw [ih (L ++ [(n, candKey hash c)]) (n + 1)]
      · -- first run resolves to an existing id `i`
        rw [ghostGo_cons_found hash c rest L n i hskip hf]
        have hstable := ghostGo_findId_stable hash rest L n (candKey hash c) i hf
        rw [ghostGo_cons_found hash c rest _ _ i hskip hstable]
        rw [ih L n]

theorem add_memories_go_proj (hash : String → String) (va : Bool)
    (lits : ℕ → Option String) (mn : String) :
    ∀ (batch : List MemoryCandidate) (st : MemStore) (idx : ℕ),
      (add_memories_go hash va lits mn st idx batch).1 =
          (ghostGo hash (projStore st) st.nextId batch).1 ∧
        projStore (add_memories_go hash va lits mn st idx batch).2 =
          (ghostGo hash (projStore st) st.nextId batch).2.1 ∧
        (add_memories_go hash va lits mn st idx batch).2.nextId =
          (ghostGo hash (projStore st) st.nextId batch).2.2 := by
  intro batch
  induction batch with
  | nil => intro st idx; exact ⟨rfl, rfl, rfl⟩
  | cons c rest ih =>
    intro st idx
    by_cases hskip : pyStrip c.content = ""
    · rw [show add_memories_go hash va lits mn st idx (c :: rest) =
          add_memories_go hash va lits mn st (idx + 1) rest from by
        rw [add_memories_go, if_pos hskip]]
      rw [ghostGo_cons_skip hash c rest _ _ hskip]
      exact ih st (idx + 1)
    · have hgo : add_memories_go hash va lits mn st idx (c :: rest) =
          ((upsert_memory va st c (hash (normalize_text (pyStrip c.content))) (lits idx)
              (if (lits idx).isSome then some mn else none)).1 ::
            (add_memories_go hash va lits mn
              (upsert_memory va st c (hash (normalize_text (pyStrip c.content))) (lits idx)
                (if (lits idx).isSome then some mn else none)).2 (idx + 1) rest).1,
            (add_memories_go hash va lits mn
              (upsert_memory va st c (hash (normalize_text (pyStrip c.content))) (lits idx)
                (if (lits idx).isSome then some mn else none)).2 (idx + 1) rest).2) := by
        rw [add_memories_go, if_neg hskip]
      rcases hdup : find_duplicate st (recKey c (hash (normalize_text (pyStrip c.content))))
        with _ | dup
      · -- no duplicate: fresh insert
        have hfind : findId (projStore st) (candKey hash c) = none := by
          have h0 := find_duplicate_proj st (recKey c (hash (normalize_text (pyStrip c.content))))
          rw [hdup] at h0
          rw [candKey]
          exact h0.symm
        obtain ⟨h1, h2, h3⟩ := upsert_proj_none va st c
          (hash (normalize_text (pyStrip c.content))) (lits idx)
          (if (lits idx).isSome then some mn else none) hdup
        rw [hgo, ghostGo_cons_none hash c rest _ _ hskip hfind]
        obtain ⟨g1, g2, g3⟩ := ih (upsert_memory va st c
          (hash (normalize_text (pyStrip c.content))) (lits idx)
          (if (lits idx).isSome then some mn else none)).2 (idx + 1)
        rw [h2, h3] at g1 g2 g3
        refine ⟨?_, ?_, ?_⟩
        · simp only [h1, g1, candKey]
        · simp only [g2, candKey]
        · simp only [g3, candKey]
      · -- duplicate found: in-place update
        have hfind : findId (projStore st) (candKey hash c) = some dup.id := by
          have h0 := find_duplicate_proj st (recKey c (hash (normalize_text (pyStrip c.content))))
          rw [hdup] at h0
          rw [candKey]
          exact h0.symm
        obtain ⟨h1, h2, h3⟩ := upsert_proj_found va st c
          (hash (normalize_text (pyStrip c.content))) (lits idx)
          (if (lits idx).isSome then some mn else none) dup hdup
        rw [hgo, ghostGo_cons_found hash c rest _ _ dup.id hskip hfind]
        obtain ⟨g1, g2, g3⟩ := ih (upsert_memory va st c
          (hash (normalize_text (pyStrip c.content))) (lits idx)
          (if (lits idx).isSome then some mn else none)).2 (idx + 1)
        rw [h2, h3] at g1 g2 g3
        exact ⟨by rw [h1, g1], g2, g3⟩

/-- C2: archiving the same candidate batch twice through
`MemoryGateway.add_memories` yields the same memory-id list (hence the same
set of ids) as archiving it once, and the second pass creates no new rows —
`upsert_memory` finds each row again under the composite key
(scope, user, group-or-empty, member-or-empty, persona-version-or-empty,
fingerprint of normalized content) and updates it in place. -/
theorem C2_add_memories_idempotent (hash : String → String) (va : Bool)
    (lits1 lits2 : ℕ → Option String) (mn1 mn2 : String) (st : MemStore)
    (batch : List MemoryCandidate) :
    (add_memories hash va lits2 mn2 (add_memories hash va lits1 mn1 st batch).2 batch).1 =
        (add_memories hash va lits1 mn1 st batch).1 ∧
      (add_memories hash va lits2 mn2
            (add_memories hash va lits1 mn1 st batch).2 batch).2.rows.map MemRow.id =
        (add_memories hash va lits1 mn1 st batch).2.rows.map MemRow.id := by
  obtain ⟨a1, a2, a3⟩ := add_memories_go_proj hash va lits1 mn1 batch st 0
  obtain ⟨b1, b2, b3⟩ := add_memories_go_proj hash va lits2 mn2 batch
    (add_memories hash va lits1 mn1 st batch).2 0
  have hidem := ghostGo_idem hash batch (projStore st) st.nextId
  unfold add_memories at *
  rw [a2, a3] at b1 b2 b3
  have hids : (projStore (add_memories_go hash va lits2 mn2
      (add_memories_go hash va lits1 mn1 st 0 batch).2 0 batch).2) =
      projStore (add_memories_go hash va lits1 mn1 st 0 batch).2 := by
    rw [b2, a2]
    rw [show (ghostGo hash (ghostGo hash (projStore st) st.nextId batch).2.1
        (ghostGo hash (projStore st) st.nextId batch).2.2 batch).2.1 =
        (ghostGo hash (projStore st) st.nextId batch).2.1 from by rw [hidem]]
  refine ⟨?_, ?_⟩
  · rw [b1, a1]
    rw [show (ghostGo hash (ghostGo hash (projStore st) st.nextId batch).2.1
        (ghostGo hash (projStore st) st.nextId batch).2.2 batch).1 =
        (ghostGo hash (projStore st) st.nextId batch).1 from by rw [hidem]]
  · have := congrArg (List.map Prod.fst) hids
    simpa [projStore, List.map_map, Function.comp] using this

/-! ### LongTermMemoryService.archive_incremental
(`memory/long_term_memory_service.py`) -/

/-- A `memory_checkpoints` row as read by `get_checkpoint`
(`dao/long_term_memory_dao.py`). -/
structure Checkpoint where
  last_message_id : String
  last_message_created_at : ℚ
deriving DecidableEq, Repr

/-- The dead-letter payload assembled on final failure: reason, group, user,
the pre-failure checkpoint and the batch size. -/
structure DeadPayload where
  reason : String
  group_id : String
  user_id : String
  checkpoint : Option Checkpoint
  message_count : ℕ
deriving DecidableEq, Repr

/-- The persistent effects of one `archive_incremental` call, in order:
audit-log inserts, checkpoint upserts (`upsert_checkpoint`), and dead-letter
inserts (`add_dead_letter`). -/
inductive ArchiveEvent
  | audit (event_type : String)
  | checkpoint_upsert (group_id user_id last_message_id : String)
      (last_message_created_at : ℚ)
  | dead_letter (group_id user_id error : String) (payload : DeadPayload)
      (retry_count : ℕ)
deriving DecidableEq, Repr

/-- The retry loop `for attempt in range(1, MAX_RETRIES + 1)`: a success runs
the success path and stops; an exception on a non-final attempt sleeps
`2^attempt` seconds (irrelevant here) and retries; an exception on the final
attempt runs the failure path with that error. -/
def runAttempts {α : Type} (attempt : ℕ → Except String α)
    (onOk : α → List ArchiveEvent) (onFail : String → List ArchiveEvent) :
    List ℕ → List ArchiveEvent
  | [] => []
  | [k] =>
    match attempt k with
    | .ok a => onOk a
    | .error e => onFail e
  | k :: rest =>
    match attempt k with
    | .ok a => onOk a
    | .error _ => runAttempts attempt onOk onFail rest

/-- Model of `LongTermMemoryService.archive_incremental`: guard on the
`memory_enabled`/`archive_enabled` flags, drop compressed messages, require
`ARCHIVE_THRESHOLD = 10` raw messages unless forced, then try the
extract → prepare → `add_memories` body (`attempt`, returning saved memory
ids or the raised error) up to `MAX_RETRIES = 3` times.  On success the
checkpoint is advanced to the last raw message and a success audit is
written; when every attempt raises, a dead letter carrying the error, the
batch description and the pre-failure checkpoint is written, followed by a
failure audit — and no checkpoint upsert. -/
def archive_incremental (memory_enabled archive_enabled : Bool)
    (group_id user_id : String) (checkpoint : Option Checkpoint)
    (messages : List Message) (force : Bool) (reason : String)
    (attempt : ℕ → Except String (List ℕ)) : List ArchiveEvent :=
  if !(memory_enabled && archive_enabled) then []
  else
    let raw_messages := messages.filter (fun m => !m.is_compressed)
    match raw_messages.getLast? with
    | none => []
    | some last_msg =>
      if !force && raw_messages.length < 10 then []
      else
        ArchiveEvent.audit "archive_start" ::
          runAttempts attempt
            (fun _ =>
              [ArchiveEvent.checkpoint_upsert group_id user_id last_msg.id
                  last_msg.created_at,
                ArchiveEvent.audit "archive_success"])
            (fun e =>
              [ArchiveEvent.dead_letter group_id user_id e
                  ⟨reason, group_id, user_id, checkpoint, raw_messages.length⟩ 3,
                ArchiveEvent.audit "archive_failed"])
            [1, 2, 3]

/-- Is this event a checkpoint upsert? -/
def isCheckpointUpsert : ArchiveEvent → Bool
  | .checkpoint_upsert .. => true
  | _ => false

/-- C3: under the guards that let archival proceed, when every one of the 3
attempts raises, no checkpoint upsert is performed and a dead letter carrying
the final error, the batch description and the pre-failure checkpoint is
written; when the first successful attempt is the k-th (k ≤ 3), the
checkpoint is advanced to the id and timestamp of the last raw message exactly
once. -/
theorem C3_archive_checkpoint_and_dead_letter
    (group_id user_id : String) (checkpoint : Option Checkpoint)
    (messages : List Message) (force : Bool) (reason : String)
    (attempt : ℕ → Except String (List ℕ)) (last_msg : Message)
    (hlast : (messages.filter (fun m => !m.is_compressed)).getLast? = some last_msg)
    (hsize : force = true ∨ 10 ≤ (messages.filter (fun m => !m.is_compressed)).length) :
    ((∀ k, 1 ≤ k → k ≤ 3 → ∃ e, attempt k = .error e) →
      (archive_incremental true true group_id user_id checkpoint messages force reason
          attempt).filter isCheckpointUpsert = [] ∧
        ∃ e, attempt 3 = .error e ∧
          ArchiveEvent.dead_letter group_id user_id e
              ⟨reason, group_id, user_id, checkpoint,
                (messages.filter (fun m => !m.is_compressed)).length⟩ 3 ∈
            archive_incremental true true group_id user_id checkpoint messages force reason
              attempt) ∧
    (∀ k ids, 1 ≤ k → k ≤ 3 → attempt k = .ok ids →
      (∀ j, 1 ≤ j → j < k → ∃ e, attempt j = .error e) →
      (archive_incremental true true group_id user_id checkpoint messages force reason
          attempt).filter isCheckpointUpsert =
        [ArchiveEvent.checkpoint_upsert group_id user_id last_msg.id last_msg.created_at]) := by
  have harch : archive_incremental true true group_id user_id checkpoint messages force reason
      attempt =
      ArchiveEvent.audit "archive_start" ::
        runAttempts attempt
          (fun _ =>
            [ArchiveEvent.checkpoint_upsert group_id user_id last_msg.id last_msg.created_at,
              ArchiveEvent.audit "archive_success"])
          (fun e =>
            [ArchiveEvent.dead_letter group_id user_id e
                ⟨reason, group_id, user_id, checkpoint,
                  (messages.filter (fun m => !m.is_compressed)).length⟩ 3,
              ArchiveEvent.audit "archive_failed"])
          [1, 2, 3] := by
    have hcond : ¬ ((!force &&
        decide ((messages.filter (fun m => !m.is_compressed)).length < 10)) = true) := by
      rcases hsize with hforce | hlen
      · rw [hforce]; simp
      · simp only [Bool.and_eq_true, Bool.not_eq_true', decide_eq_true_eq, not_and]
        intro _ hc
        omega
    unfold archive_incremental
    rw [if_neg (by decide)]
    simp only [hlast]
    rw [if_neg hcond]
  constructor
  · intro hall
    obtain ⟨e1, he1⟩ := hall 1 (by omega) (by omega)
    obtain ⟨e2, he2⟩ := hall 2 (by omega) (by omega)
    obtain ⟨e3, he3⟩ := hall 3 (by omega) (by omega)
    rw [harch]
    simp only [runAttempts, he1, he2, he3]
    refine ⟨by simp [isCheckpointUpsert], e3, rfl, by simp⟩
  · intro k ids hk1 hk3 hok hprev
    rw [harch]
    have hk : k = 1 ∨ k = 2 ∨ k = 3 := by omega
    rcases hk with hk | hk | hk
    · subst hk
      simp only [runAttempts, hok]
      simp [isCheckpointUpsert]
    · subst hk
      obtain ⟨e1, he1⟩ := hprev 1 (by omega) (by omega)
      simp only [runAttempts, he1, hok]
      simp [isCheckpointUpsert]
    · subst hk
      obtain ⟨e1, he1⟩ := hprev 1 (by omega) (by omega)
      obtain ⟨e2, he2⟩ := hprev 2 (by omega) (by omega)
      simp only [runAttempts, he1, he2, hok]
      simp [isCheckpointUpsert]

theorem C3_archive_checkpoint_and_dead_letter_witness :
    ((wMsg :: []).filter (fun m => !m.is_compressed)).getLast? = some wMsg ∧
      (true = true ∨ 10 ≤ ((wMsg :: []).filter (fun m => !m.is_compressed)).length) ∧
      (archive_incremental true true "g" "u" none (wMsg :: []) true "event"
          (fun _ => Except.ok [])).filter isCheckpointUpsert =
        [ArchiveEvent.checkpoint_upsert "g" "u" wMsg.id wMsg.created_at] :=
  ⟨by decide, Or.inl rfl,
    (C3_archive_checkpoint_and_dead_letter "g" "u" none (wMsg :: []) true "event"
        (fun _ => Except.ok []) wMsg (by decide) (Or.inl rfl)).2 1 []
      (by omega) (by omega) rfl
      (fun j hj1 hj2 => (by omega : False).elim)⟩

end AiGroupChat
